import Mathlib

/-!
Verification development for the Skill Packager
(`scripts/package_skill.py`), a tool that validates a skill directory
and packages it into a `.skill` (zip) archive.

The Python source is shallowly embedded below:
* strings are Lean `String`s, with the character-level operations the
  source uses (`str.split('\n')`, `str.strip()`, `str.startswith`,
  substring containment, `re.match(r'^[a-z0-9-]+$', ...)`) modelled as
  structurally recursive functions over `List Char`;
* the filesystem is an association list from paths (component lists) to
  nodes (regular file with content, directory, or a previously written
  archive); `package_skill` threads the filesystem explicitly and also
  returns the ordered list of filesystem operations it performed, so
  that frame properties ("no access before X") can be stated;
* a zip archive is modelled by its logical entry list
  (entry name, uncompressed content); the opaque on-disk byte string of
  an archive is `zipBytes`, used only if an archive file is itself read
  back as input. Opening the zip writer creates/truncates the output
  file on disk before the walk starts, so an output file placed inside
  the source tree is itself enumerated and archived (as a partially
  written file, modelled by `Node.pending`).
-/

namespace SkillPackager

/-- A filesystem path, as its list of components. -/
abbrev Path := List String

/-- Characters allowed by the skill-name character class `[a-z0-9-]`. -/
def isSkillChar (c : Char) : Bool :=
  decide (('a' ≤ c ∧ c ≤ 'z') ∨ ('0' ≤ c ∧ c ≤ '9') ∨ c = '-')

/-- Embedding of Python `re.match(r'^[a-z0-9-]+\x24', s)` being truthy.
In Python, `\x24` (dollar) matches at the very end of the string or just
before a single trailing newline, so the regex accepts a nonempty run of
`[a-z0-9-]` characters optionally followed by one final newline. -/
def reMatchSkillName (s : String) : Bool :=
  let cs := s.data
  (!cs.isEmpty && cs.all isSkillChar) ||
    (decide (cs.getLast? = some '\n') && !cs.dropLast.isEmpty &&
      cs.dropLast.all isSkillChar)

/-- Error message returned when the name has a disallowed character. -/
def msgFormat : String :=
  "Skill name must contain only lowercase letters, numbers, and hyphens"

/-- Error message returned when the name is longer than 64 characters. -/
def msgTooLong : String := "Skill name must be 64 characters or less"

/-- Embedding of `validate_skill_name`. -/
def validate_skill_name (name : String) : Bool × Option String :=
  if reMatchSkillName name = false then
    (false, some msgFormat)
  else if name.length > 64 then
    (false, some msgTooLong)
  else
    (true, none)

/-- Embedding of Python `str.split('\n')`: split into the list of lines,
keeping empty pieces (so the result always has one more piece than there
are newline characters). -/
def splitOnNl : List Char → List (List Char)
  | [] => [[]]
  | c :: cs =>
    if c = '\n' then [] :: splitOnNl cs
    else
      match splitOnNl cs with
      | [] => [[c]]
      | l :: ls => (c :: l) :: ls

/-- Whitespace characters stripped by Python `str.strip()`
(ASCII subset; the source never depends on non-ASCII whitespace). -/
def pyIsSpace (c : Char) : Bool :=
  decide (c = ' ' ∨ c = '\t' ∨ c = '\n' ∨ c = '\r' ∨ c = '\x0b' ∨ c = '\x0c')

/-- Embedding of Python `str.strip()` on a line (as a character list). -/
def stripChars (cs : List Char) : List Char :=
  ((cs.dropWhile pyIsSpace).reverse.dropWhile pyIsSpace).reverse

/-- Embedding of Python `s.startswith(pre)`. -/
def pyStartsWith (s pre : String) : Bool :=
  pre.data.isPrefixOf s.data

/-- Embedding of Python `needle in hay` (substring containment). -/
def hasSub (needle hay : List Char) : Bool :=
  (List.range (hay.length + 1)).any (fun i => needle.isPrefixOf (hay.drop i))

/-- The scan of `validate_frontmatter` for the closing delimiter: index of
the first line whose stripped form is `---`, in the given line list
(the source scans `lines[1:]`, so this is applied to the tail). -/
def findDelim : List (List Char) → Option Nat
  | [] => none
  | l :: ls =>
    if stripChars l = "---".data then some 0
    else (findDelim ls).map (fun i => i + 1)

/-- The interior text `'\n'.join(lines[1:frontmatter_end])` of the header
block, given the delimiter index `j` returned by `findDelim` on the tail. -/
def frontmatterText (content : String) (j : Nat) : List Char :=
  List.intercalate ['\n'] (((splitOnNl content.data).drop 1).take j)

/-- Error message for a manifest that does not start with `---`. -/
def msgStart : String := "SKILL.md must start with YAML frontmatter (---)"

/-- Error message for a manifest with no closing `---` line. -/
def msgEnd : String := "SKILL.md frontmatter must end with ---"

/-- Error message for a header block without the `name:` substring. -/
def msgName : String := "SKILL.md frontmatter must include \x27name:\x27 field"

/-- Error message for a header block without the `description:` substring. -/
def msgDesc : String :=
  "SKILL.md frontmatter must include \x27description:\x27 field"

/-- Embedding of `validate_frontmatter`, applied to the decoded text of the
manifest file (the `open`/read and its `ReadError` handling live in
`package_skill` below, which performs the read in this model). -/
def validate_frontmatter (content : String) : Bool × Option String :=
  if pyStartsWith content "---" = false then
    (false, some msgStart)
  else
    match findDelim ((splitOnNl content.data).drop 1) with
    | none => (false, some msgEnd)
    | some j =>
      if hasSub "name:".data (frontmatterText content j) = false then
        (false, some msgName)
      else if hasSub "description:".data (frontmatterText content j) = false then
        (false, some msgDesc)
      else
        (true, none)

/-- Opaque byte string of a zip archive file, used only when a previously
written archive is itself read back or re-archived as an input file; no
claim depends on its actual value. -/
def zipBytes (es : List (Path × String)) : String :=
  String.mk (List.flatten (es.map (fun e => e.2.data)))

/-- A filesystem node: a regular file with text content, a directory, a
zip archive written by a completed run (on disk an archive is a regular
file; it is kept as its logical entry list here), or the output file of
the run in progress: opening the zip writer creates/truncates it on disk
before the walk starts, so the walk can enumerate it. -/
inductive Node
  | file (content : String)
  | dir
  | archive (entries : List (Path × String))
  | pending
deriving DecidableEq

/-- Whether a node is a directory. -/
def Node.isDir : Node → Bool
  | Node.dir => true
  | _ => false

/-- Placeholder for the byte content of the output file while it is still
being written: the real bytes depend on how much of the zip stream has
been flushed when the read happens, which the source leaves unspecified;
no claim depends on this value. -/
def pendingBytes : String := ""

/-- The byte content a node presents when read as a regular file. -/
def nodeBytes : Node → String
  | Node.file c => c
  | Node.dir => ""
  | Node.archive es => zipBytes es
  | Node.pending => pendingBytes

/-- The filesystem: a finite map from paths to nodes, as an association
list (first binding wins). -/
structure FS where
  entries : List (Path × Node)
deriving DecidableEq

/-- Look a path up in the filesystem. -/
def FS.lookup (fs : FS) (p : Path) : Option Node :=
  (fs.entries.find? (fun e => decide (e.1 = p))).map Prod.snd

/-- Embedding of `Path.exists()`: true for files, directories and
archives alike. -/
def FS.existsP (fs : FS) (p : Path) : Bool :=
  (fs.lookup p).isSome

/-- Create or overwrite the node at a path. -/
def FS.insert (fs : FS) (p : Path) (n : Node) : FS :=
  ⟨(p, n) :: fs.entries.filter (fun e => decide (e.1 ≠ p))⟩

/-- The filesystem as `zipfile.ZipFile(output_file, "w", ...)` leaves it:
the output file exists, created or truncated, before any entry is walked
or written. -/
def openedFS (fs : FS) (out : Path) : FS :=
  fs.insert out Node.pending

/-- Reading a path as a text file: a regular file yields its content, an
archive (or an output file mid-write) yields its on-disk bytes, a
directory or absent path cannot be opened for reading. -/
def readNode : Option Node → Option String
  | some (Node.file c) => some c
  | some (Node.archive es) => some (zipBytes es)
  | some Node.pending => some pendingBytes
  | _ => none

/-- A filesystem operation performed by `package_skill`, in order:
an existence check, a file read, or a file creation/write. -/
inductive FsEvent
  | existsCheck (p : Path)
  | readFile (p : Path)
  | writeFile (p : Path)
deriving DecidableEq

/-- Outcome of `package_skill`, one constructor per distinct failure
report of the source (which prints a message and returns `False`),
plus `success` for a `True` return. -/
inductive PkgResult
  | invalidName (msg : String)
  | dirNotFound
  | manifestNotFound
  | fmError (msg : String)
  | packagingError
  | success
deriving DecidableEq

/-- Message produced by the `except` clause of `validate_frontmatter` when
the manifest cannot be opened or decoded (the underlying cause string is
not modelled). -/
def readErrorMsg : String := "Error reading SKILL.md: "

/-- The resolved Source Tree path `(source_path or cwd) / skill_name`. -/
def srcPath (cwd : Path) (source_path : Option Path) (skill_name : String) : Path :=
  (source_path.getD cwd) ++ [skill_name]

/-- The manifest path `source_path / "SKILL.md"`. -/
def manifestPath (cwd : Path) (source_path : Option Path) (skill_name : String) : Path :=
  srcPath cwd source_path skill_name ++ ["SKILL.md"]

/-- The resolved output path `(output_path or cwd) / (skill_name + ".skill")`. -/
def outFile (cwd : Path) (output_path : Option Path) (skill_name : String) : Path :=
  (output_path.getD cwd) ++ [skill_name ++ ".skill"]

/-- Embedding of the `os.walk` loop: every non-directory entry strictly
below the Source Tree root, in the (unspecified) enumeration order of the
filesystem representation. -/
def walkList (fs : FS) (sp : Path) : List (Path × Node) :=
  fs.entries.filter
    (fun e => sp.isPrefixOf e.1 && decide (e.1 ≠ sp) && !e.2.isDir)

/-- Archive entry name of a walked file:
`file_path.relative_to(source_path.parent)`, i.e. the path with the
components of the Source Tree's parent removed. -/
def arcname (sp q : Path) : Path :=
  q.drop (sp.length - 1)

/-- The logical entry list of the archive written on the success path:
each walked file under its `arcname`, holding its byte content. -/
def zipEntries (fs : FS) (sp : Path) : List (Path × String) :=
  (walkList fs sp).map (fun e => (arcname sp e.1, nodeBytes e.2))

/-- Events common to every branch at or past the manifest read. -/
def preLog (cwd : Path) (source_path : Option Path) (skill_name : String) :
    List FsEvent :=
  [FsEvent.existsCheck (srcPath cwd source_path skill_name),
   FsEvent.existsCheck (manifestPath cwd source_path skill_name),
   FsEvent.readFile (manifestPath cwd source_path skill_name)]

/-- Embedding of `package_skill`. Besides the outcome it returns the
ordered list of filesystem operations performed and the final
filesystem state. -/
def package_skill (fs : FS) (cwd : Path) (skill_name : String)
    (source_path output_path : Option Path) :
    PkgResult × List FsEvent × FS :=
  if (validate_skill_name skill_name).1 = false then
    (PkgResult.invalidName ((validate_skill_name skill_name).2.getD ""), [], fs)
  else if fs.existsP (srcPath cwd source_path skill_name) = false then
    (PkgResult.dirNotFound,
     [FsEvent.existsCheck (srcPath cwd source_path skill_name)], fs)
  else if fs.existsP (manifestPath cwd source_path skill_name) = false then
    (PkgResult.manifestNotFound,
     [FsEvent.existsCheck (srcPath cwd source_path skill_name),
      FsEvent.existsCheck (manifestPath cwd source_path skill_name)], fs)
  else
    match readNode (fs.lookup (manifestPath cwd source_path skill_name)) with
    | none =>
      (PkgResult.fmError readErrorMsg, preLog cwd source_path skill_name, fs)
    | some content =>
      if (validate_frontmatter content).1 = false then
        (PkgResult.fmError ((validate_frontmatter content).2.getD ""),
         preLog cwd source_path skill_name, fs)
      else if fs.lookup (outFile cwd output_path skill_name) = some Node.dir then
        (PkgResult.packagingError,
         preLog cwd source_path skill_name ++
           [FsEvent.writeFile (outFile cwd output_path skill_name)], fs)
      else
        (PkgResult.success,
         preLog cwd source_path skill_name ++
           [FsEvent.writeFile (outFile cwd output_path skill_name)] ++
           (walkList (openedFS fs (outFile cwd output_path skill_name))
               (srcPath cwd source_path skill_name)).map
             (fun e => FsEvent.readFile e.1),
         (openedFS fs (outFile cwd output_path skill_name)).insert
           (outFile cwd output_path skill_name)
           (Node.archive
             (zipEntries (openedFS fs (outFile cwd output_path skill_name))
               (srcPath cwd source_path skill_name))))

/-- Parse a command-line path argument into components (OS path parsing
is a thin wrapper in the source; empty components are dropped). -/
def parsePath (s : String) : Path :=
  (s.splitOn "/").filter (fun c => decide (c ≠ ""))

/-- Embedding of `main`: with fewer than two `argv` entries print usage and
exit 1, otherwise run `package_skill` and exit 0 on success, 1 on failure. -/
def main (fs : FS) (cwd : Path) (argv : List String) : Nat :=
  match argv with
  | _ :: skill_name :: rest =>
    if (package_skill fs cwd skill_name ((rest[0]?).map parsePath)
          ((rest[1]?).map parsePath)).1 = PkgResult.success
    then 0 else 1
  | _ => 1

/-- The end-to-end example filesystem: a directory `foo` holding a valid
`SKILL.md` and one extra file `helper.txt`. -/
def fooFS : FS :=
  ⟨[(["foo"], Node.dir),
    (["foo", "SKILL.md"], Node.file "---\nname: x\ndescription: y\n---\n"),
    (["foo", "helper.txt"], Node.file "hello")]⟩

/-- An example filesystem where the resolved skill path exists as a
regular file rather than a directory. -/
def fileFS : FS :=
  ⟨[(["foo"], Node.file "oops")]⟩

/-! Helper lemmas about the embedding. -/

/-- Boolean prefix test agrees with the prefix relation. -/
theorem prefixOf_spec (l₁ l₂ : Path) : l₁.isPrefixOf l₂ = true ↔ l₁ <+: l₂ :=
  List.isPrefixOf_iff_prefix

/-- The delimiter scan fails exactly when no line strips to `---`. -/
theorem findDelim_eq_none (ls : List (List Char)) :
    findDelim ls = none ↔ ∀ l ∈ ls, stripChars l ≠ "---".data := by
  induction ls with
  | nil => simp [findDelim]
  | cons l ls ih =>
    by_cases h : stripChars l = "---".data
    · simp [findDelim, h]
    · simp [findDelim, h, Option.map_eq_none', ih]

/-- Looking up the path just written finds the new node. -/
theorem lookup_insert (fs : FS) (p : Path) (n : Node) :
    (fs.insert p n).lookup p = some n := by
  simp [FS.insert, FS.lookup, List.find?]

/-- Auxiliary: `find?` for one key ignores the removal of another key. -/
theorem find?_filter_ne (l : List (Path × Node)) (p q : Path) (h : q ≠ p) :
    List.find? (fun e => decide (e.1 = q))
        (l.filter (fun e => decide (e.1 ≠ p))) =
      List.find? (fun e => decide (e.1 = q)) l := by
  induction l with
  | nil => rfl
  | cons e l ih =>
    by_cases hp : e.1 = p
    · have hq : decide (e.1 = q) = false := by
        simp only [decide_eq_false_iff_not]
        exact fun he => h (he ▸ hp ▸ rfl)
      rw [List.filter_cons, if_neg (by simp [hp]),
        List.find?_cons_of_neg _ (by simp [hq]), ih]
    · rw [List.filter_cons, if_pos (by simp [hp])]
      by_cases hq : e.1 = q
      · rw [List.find?_cons_of_pos _ (by simp [hq]),
          List.find?_cons_of_pos _ (by simp [hq])]
      · rw [List.find?_cons_of_neg _ (by simp [hq]),
          List.find?_cons_of_neg _ (by simp [hq]), ih]

/-- Writing one path leaves lookups of other paths unchanged. -/
theorem lookup_insert_ne (fs : FS) (p q : Path) (n : Node) (h : q ≠ p) :
    (fs.insert p n).lookup q = fs.lookup q := by
  simp only [FS.insert, FS.lookup]
  rw [List.find?_cons_of_neg _ (by simp; exact fun hpq => h (Eq.symm hpq)),
    find?_filter_ne fs.entries p q h]

/-- Writing a path outside the Source Tree does not change the walk. -/
theorem walkList_insert (fs : FS) (sp p : Path) (n : Node)
    (h : ¬ sp <+: p) :
    walkList (fs.insert p n) sp = walkList fs sp := by
  have hpref : sp.isPrefixOf p = false := by
    rw [Bool.eq_false_iff]
    exact fun hc => h ((prefixOf_spec sp p).mp hc)
  unfold walkList FS.insert
  rw [List.filter_cons, if_neg (by simp [hpref]), List.filter_filter]
  refine List.filter_congr (fun e _ => ?_)
  by_cases hsp : sp.isPrefixOf e.1 = true
  · have hne : e.1 ≠ p := by
      intro hep
      rw [hep] at hsp
      rw [hsp] at hpref
      exact Bool.noConfusion hpref
    simp [hne]
  · have hf : sp.isPrefixOf e.1 = false := Bool.eq_false_iff.mpr hsp
    simp [hf]

/-- Overwriting a just-written path is the same as writing it once. -/
theorem insert_insert (fs : FS) (p : Path) (n1 n2 : Node) :
    (fs.insert p n1).insert p n2 = fs.insert p n2 := by
  unfold FS.insert
  congr 1
  congr 1
  rw [List.filter_cons, if_neg (by simp), List.filter_filter]
  exact List.filter_congr (fun e _ => Bool.and_self _)

/-- Inversion of a successful run: every guard held and the final state is
the input filesystem plus the archive written at the output path. -/
theorem package_skill_success_inv
    (fs : FS) (cwd : Path) (name : String) (spo opo : Option Path)
    (ev : List FsEvent) (fs' : FS)
    (h : package_skill fs cwd name spo opo = (PkgResult.success, ev, fs')) :
    (validate_skill_name name).1 = true ∧
    fs.existsP (srcPath cwd spo name) = true ∧
    fs.existsP (manifestPath cwd spo name) = true ∧
    (∃ content, readNode (fs.lookup (manifestPath cwd spo name)) = some content ∧
      (validate_frontmatter content).1 = true) ∧
    fs.lookup (outFile cwd opo name) ≠ some Node.dir ∧
    ev = preLog cwd spo name ++
      [FsEvent.writeFile (outFile cwd opo name)] ++
      (walkList (openedFS fs (outFile cwd opo name))
          (srcPath cwd spo name)).map (fun e => FsEvent.readFile e.1) ∧
    fs' = (openedFS fs (outFile cwd opo name)).insert (outFile cwd opo name)
      (Node.archive (zipEntries (openedFS fs (outFile cwd opo name))
        (srcPath cwd spo name))) := by
  unfold package_skill at h
  split at h
  · simp at h
  · split at h
    · simp at h
    · split at h
      · simp at h
      · rename_i h1 h2 h3
        split at h
        · simp at h
        · rename_i content hread
          split at h
          · simp at h
          · split at h
            · simp at h
            · rename_i h4 h5
              simp only [Prod.mk.injEq, true_and] at h
              refine ⟨by simpa using h1, by simpa using h2, by simpa using h3,
                ⟨content, hread, by simpa using h4⟩, h5, h.1.symm, h.2.symm⟩

/-- A run with every guard satisfied takes the success branch. -/
theorem package_skill_success_run
    (fs : FS) (cwd : Path) (name : String) (spo opo : Option Path)
    (h1 : (validate_skill_name name).1 = true)
    (h2 : fs.existsP (srcPath cwd spo name) = true)
    (h3 : fs.existsP (manifestPath cwd spo name) = true)
    (content : String)
    (h4 : readNode (fs.lookup (manifestPath cwd spo name)) = some content)
    (h5 : (validate_frontmatter content).1 = true)
    (h6 : fs.lookup (outFile cwd opo name) ≠ some Node.dir) :
    package_skill fs cwd name spo opo =
      (PkgResult.success,
       preLog cwd spo name ++
         [FsEvent.writeFile (outFile cwd opo name)] ++
         (walkList (openedFS fs (outFile cwd opo name))
             (srcPath cwd spo name)).map (fun e => FsEvent.readFile e.1),
       (openedFS fs (outFile cwd opo name)).insert (outFile cwd opo name)
         (Node.archive (zipEntries (openedFS fs (outFile cwd opo name))
           (srcPath cwd spo name)))) := by
  unfold package_skill
  rw [h1, h2, h3, h4]
  simp [h5, h6]

/-- Characterization of the trailing-newline disjunct of the regex match. -/
theorem trailingNl_spec (cs : List Char) :
    (cs.getLast? = some '\n' ∧ cs.dropLast ≠ [] ∧
        ∀ c ∈ cs.dropLast, isSkillChar c = true) ↔
      ∃ t, cs = t ++ ['\n'] ∧ t ≠ [] ∧ ∀ c ∈ t, isSkillChar c = true := by
  constructor
  · rintro ⟨hlast, hne, hall⟩
    have hcs : cs ≠ [] := by
      intro hnil
      rw [hnil] at hlast
      exact Option.noConfusion hlast
    have hsplit := List.dropLast_append_getLast hcs
    have hgl : cs.getLast hcs = '\n' := by
      have := List.getLast?_eq_getLast cs hcs
      rw [this] at hlast
      exact Option.some.inj hlast
    refine ⟨cs.dropLast, ?_, hne, hall⟩
    conv_lhs => rw [← hsplit]
    rw [hgl]
  · rintro ⟨t, rfl, hne, hall⟩
    refine ⟨List.getLast?_concat t, ?_⟩
    rw [List.dropLast_concat]
    exact ⟨hne, hall⟩

/-- The regex test succeeds exactly on a nonempty run of allowed
characters, optionally followed by a single trailing newline. -/
theorem reMatch_spec (s : String) :
    reMatchSkillName s = true ↔
      (s.data ≠ [] ∧ ∀ c ∈ s.data, isSkillChar c = true) ∨
      (∃ t, s.data = t ++ ['\n'] ∧ t ≠ [] ∧ ∀ c ∈ t, isSkillChar c = true) := by
  unfold reMatchSkillName
  rw [← trailingNl_spec s.data]
  simp [List.all_eq_true, and_assoc, List.isEmpty_iff]

/-- C1 (amended): the Identifier Validator succeeds exactly on strings of
length at most 64 that are a nonempty run of characters in a-z, 0-9, hyphen,
optionally followed by one trailing newline (Python regex dollar-anchor
semantics); it fails on every other string. -/
theorem c1_skill_name_characterization (s : String) :
    (validate_skill_name s).1 = true ↔
      ((s.data ≠ [] ∧ ∀ c ∈ s.data, isSkillChar c = true) ∨
        (∃ t, s.data = t ++ ['\n'] ∧ t ≠ [] ∧ ∀ c ∈ t, isSkillChar c = true)) ∧
      s.length ≤ 64 := by
  unfold validate_skill_name
  by_cases hm : reMatchSkillName s = false
  · rw [if_pos hm]
    constructor
    · intro h
      exact absurd h (by decide)
    · rintro ⟨hd, _⟩
      have := (reMatch_spec s).mpr hd
      rw [hm] at this
      exact Bool.noConfusion this
  · rw [if_neg hm]
    have hm' : reMatchSkillName s = true := by
      cases hc : reMatchSkillName s with
      | false => exact absurd hc hm
      | true => rfl
    by_cases hl : s.length > 64
    · rw [if_pos hl]
      constructor
      · intro h
        exact absurd h (by decide)
      · rintro ⟨_, hle⟩
        omega
    · rw [if_neg hl]
      constructor
      · intro _
        exact ⟨(reMatch_spec s).mp hm', by omega⟩
      · intro _
        rfl

/-- C1 (counterexample to the claim as stated): the two-character string
of an `a` and a newline contains a character outside the allowed class,
yet the Identifier Validator succeeds on it. -/
theorem c1_counterexample :
    validate_skill_name "a\n" = (true, none) ∧
      '\n' ∈ "a\n".data ∧ isSkillChar '\n' = false := by
  decide

/-- Reduction of the validator when the scan finds no closing delimiter. -/
theorem validate_frontmatter_eq_of_none (content : String)
    (h1 : pyStartsWith content "---" = true)
    (h2 : findDelim ((splitOnNl content.data).drop 1) = none) :
    validate_frontmatter content = (false, some msgEnd) := by
  unfold validate_frontmatter
  rw [if_neg (by simp [h1]), h2]

/-- Reduction of the validator when the scan finds the closing delimiter
at (tail) index j. -/
theorem validate_frontmatter_eq_of_some (content : String) (j : Nat)
    (h1 : pyStartsWith content "---" = true)
    (h2 : findDelim ((splitOnNl content.data).drop 1) = some j) :
    validate_frontmatter content =
      (if hasSub "name:".data (frontmatterText content j) = false then
        (false, some msgName)
      else if hasSub "description:".data (frontmatterText content j) = false then
        (false, some msgDesc)
      else (true, none)) := by
  unfold validate_frontmatter
  rw [if_neg (by simp [h1]), h2]

/-- C3 (amended): for a manifest that begins with the delimiter, the
validator reports the missing-end failure exactly when no line after the
first strips (Python `str.strip`) to `---`; a line that is `---` with
surrounding whitespace also counts as a closing delimiter. -/
theorem c3_missing_end_iff (content : String)
    (h : pyStartsWith content "---" = true) :
    validate_frontmatter content = (false, some msgEnd) ↔
      ∀ l ∈ (splitOnNl content.data).drop 1, stripChars l ≠ "---".data := by
  cases hfd : findDelim ((splitOnNl content.data).drop 1) with
  | none =>
    exact ⟨fun _ => (findDelim_eq_none _).mp hfd,
      fun _ => validate_frontmatter_eq_of_none content h hfd⟩
  | some j =>
    rw [validate_frontmatter_eq_of_some content j h hfd]
    constructor
    · intro hres
      exfalso
      by_cases hn : hasSub "name:".data (frontmatterText content j) = false
      · rw [if_pos hn] at hres
        exact absurd (congrArg Prod.snd hres) (by decide)
      · rw [if_neg hn] at hres
        by_cases hd : hasSub "description:".data (frontmatterText content j) = false
        · rw [if_pos hd] at hres
          exact absurd (congrArg Prod.snd hres) (by decide)
        · rw [if_neg hd] at hres
          exact absurd (congrArg Prod.snd hres) (by decide)
    · intro hall
      have := (findDelim_eq_none _).mpr hall
      rw [hfd] at this
      exact Option.noConfusion this

/-- C3 (counterexample to the claim as stated): in the manifest consisting
of `---`, then a line of a space followed by `---`, then a newline, no line
after the first consists solely of `---`, yet the validator does not
report the missing-end failure (it reports the missing `name:` field). -/
theorem c3_counterexample :
    (∀ l ∈ (splitOnNl ("---\n ---\n").data).drop 1, l ≠ "---".data) ∧
      pyStartsWith "---\n ---\n" "---" = true ∧
      validate_frontmatter "---\n ---\n" = (false, some msgName) ∧
      validate_frontmatter "---\n ---\n" ≠ (false, some msgEnd) := by
  decide

/-- C3 (witness): a manifest with a start delimiter and no closing line at
all fails with the missing-end message. -/
theorem c3_witness :
    validate_frontmatter "---\nabc" = (false, some msgEnd) := by
  rw [c3_missing_end_iff "---\nabc" (by decide)]
  decide

/-- C4: for a manifest that begins with the delimiter and whose closing
delimiter is found at (tail) line index j, validation reports the missing
`name:` field when the interior text lacks that substring, reports the
missing `description:` field when `name:` is present but `description:`
is absent, and succeeds when both substrings are present. -/
theorem c4_required_fields (content : String) (j : Nat)
    (h1 : pyStartsWith content "---" = true)
    (h2 : findDelim ((splitOnNl content.data).drop 1) = some j) :
    (hasSub "name:".data (frontmatterText content j) = false →
        validate_frontmatter content = (false, some msgName)) ∧
    (hasSub "name:".data (frontmatterText content j) = true →
      hasSub "description:".data (frontmatterText content j) = false →
        validate_frontmatter content = (false, some msgDesc)) ∧
    (hasSub "name:".data (frontmatterText content j) = true →
      hasSub "description:".data (frontmatterText content j) = true →
        validate_frontmatter content = (true, none)) := by
  rw [validate_frontmatter_eq_of_some content j h1 h2]
  refine ⟨fun hn => ?_, fun hn hd => ?_, fun hn hd => ?_⟩
  · rw [if_pos hn]
  · rw [if_neg (by simp [hn]), if_pos hd]
  · rw [if_neg (by simp [hn]), if_neg (by simp [hd])]

/-- C4 (witness): the four-line manifest with exactly the start delimiter,
a `name:` line, a `description:` line and the closing delimiter validates
successfully. -/
theorem c4_witness :
    validate_frontmatter "---\nname: x\ndescription: y\n---\n" = (true, none) :=
  (c4_required_fields "---\nname: x\ndescription: y\n---\n" 2
    (by decide) (by decide)).2.2 (by decide) (by decide)

/-- C5: the validator reports the missing-start failure exactly when the
manifest content does not begin with the three characters `---`. -/
theorem c5_missing_start_iff (content : String) :
    validate_frontmatter content = (false, some msgStart) ↔
      pyStartsWith content "---" = false := by
  by_cases h : pyStartsWith content "---" = false
  · unfold validate_frontmatter
    simp [h]
  · have h' : pyStartsWith content "---" = true := by
      cases hc : pyStartsWith content "---" with
      | false => exact absurd hc h
      | true => rfl
    constructor
    · intro hres
      exfalso
      cases hfd : findDelim ((splitOnNl content.data).drop 1) with
      | none =>
        rw [validate_frontmatter_eq_of_none content h' hfd] at hres
        exact absurd (congrArg Prod.snd hres) (by decide)
      | some j =>
        rw [validate_frontmatter_eq_of_some content j h' hfd] at hres
        by_cases hn : hasSub "name:".data (frontmatterText content j) = false
        · rw [if_pos hn] at hres
          exact absurd (congrArg Prod.snd hres) (by decide)
        · rw [if_neg hn] at hres
          by_cases hd : hasSub "description:".data (frontmatterText content j) = false
          · rw [if_pos hd] at hres
            exact absurd (congrArg Prod.snd hres) (by decide)
          · rw [if_neg hd] at hres
            exact absurd (congrArg Prod.snd hres) (by decide)
    · intro hc
      exact absurd hc h

/-- C2 (amended): on every successful run whose output file does not lie
inside the Source Tree, the written archive holds exactly the
non-directory entries strictly under the Source Tree, each stored under
its path relative to the Source Tree's parent directory (so the
identifier directory is the leading component) with its original byte
content. (When the output file lies inside the Source Tree, the source
creates it by opening the zip writer before the walk, and the archive
additionally picks up a partially written entry for the output file
itself; see the counterexample.) -/
theorem c2_archive_entries
    (fs : FS) (cwd : Path) (name : String) (spo opo : Option Path)
    (ev : List FsEvent) (fs' : FS)
    (h : package_skill fs cwd name spo opo = (PkgResult.success, ev, fs'))
    (hout : (srcPath cwd spo name).isPrefixOf (outFile cwd opo name) = false) :
    ∃ es, fs'.lookup (outFile cwd opo name) = some (Node.archive es) ∧
      ∀ a c, (a, c) ∈ es ↔
        ∃ q n, (q, n) ∈ fs.entries ∧ srcPath cwd spo name <+: q ∧
          q ≠ srcPath cwd spo name ∧ n.isDir = false ∧
          a = arcname (srcPath cwd spo name) q ∧ c = nodeBytes n := by
  obtain ⟨-, -, -, -, -, -, hfs'⟩ :=
    package_skill_success_inv fs cwd name spo opo ev fs' h
  have hnpref : ¬ srcPath cwd spo name <+: outFile cwd opo name := by
    intro hc
    rw [(prefixOf_spec _ _).mpr hc] at hout
    exact Bool.noConfusion hout
  have hwalk : walkList (openedFS fs (outFile cwd opo name))
      (srcPath cwd spo name) = walkList fs (srcPath cwd spo name) := by
    unfold openedFS
    exact walkList_insert fs _ _ _ hnpref
  have hzip : zipEntries (openedFS fs (outFile cwd opo name))
      (srcPath cwd spo name) = zipEntries fs (srcPath cwd spo name) := by
    unfold zipEntries
    rw [hwalk]
  have hfs2 : fs' = fs.insert (outFile cwd opo name)
      (Node.archive (zipEntries fs (srcPath cwd spo name))) := by
    rw [hfs', hzip]
    unfold openedFS
    exact insert_insert fs _ _ _
  refine ⟨zipEntries fs (srcPath cwd spo name), ?_, ?_⟩
  · rw [hfs2, lookup_insert]
  · intro a c
    constructor
    · intro hm
      simp only [zipEntries, List.mem_map] at hm
      obtain ⟨e, he, heq⟩ := hm
      simp only [walkList, List.mem_filter, Bool.and_eq_true,
        decide_eq_true_eq, Bool.not_eq_true'] at he
      obtain ⟨hmem, ⟨hpf, hne⟩, hdir⟩ := he
      injection heq with ha hc
      exact ⟨e.1, e.2, hmem, (prefixOf_spec _ _).mp hpf, hne, hdir,
        ha.symm, hc.symm⟩
    · rintro ⟨q, n, hmem, hpf, hne, hdir, rfl, rfl⟩
      simp only [zipEntries, List.mem_map]
      refine ⟨(q, n), ?_, rfl⟩
      simp only [walkList, List.mem_filter, Bool.and_eq_true,
        decide_eq_true_eq, Bool.not_eq_true']
      exact ⟨hmem, ⟨(prefixOf_spec _ _).mpr hpf, hne⟩, hdir⟩

/-- C2 (witness): the end-to-end example. Packaging the directory `foo`
containing a valid `SKILL.md` and `helper.txt` produces an archive at
`foo.skill` with exactly the entries `foo/SKILL.md` and `foo/helper.txt`
holding the original contents, and the general entry characterization
holds on it. -/
theorem c2_witness :
    ((package_skill fooFS [] "foo" none none).2.2).lookup ["foo.skill"] =
        some (Node.archive
          [(["foo", "SKILL.md"], "---\nname: x\ndescription: y\n---\n"),
           (["foo", "helper.txt"], "hello")]) ∧
    (∃ es, ((package_skill fooFS [] "foo" none none).2.2).lookup
          (outFile [] none "foo") = some (Node.archive es) ∧
      ∀ a c, (a, c) ∈ es ↔
        ∃ q n, (q, n) ∈ fooFS.entries ∧ srcPath [] none "foo" <+: q ∧
          q ≠ srcPath [] none "foo" ∧ n.isDir = false ∧
          a = arcname (srcPath [] none "foo") q ∧ c = nodeBytes n) :=
  ⟨by decide,
   c2_archive_entries fooFS [] "foo" none none
     (package_skill fooFS [] "foo" none none).2.1
     (package_skill fooFS [] "foo" none none).2.2 rfl (by decide)⟩

/-- C2 (counterexample to the claim as stated): packaging `foo` with the
output directory set to the skill directory itself succeeds, and because
the source creates/truncates the output file before walking, the archive
contains an extra entry `foo/foo.skill` for the partially written output
file, which is not one of the Source Tree's regular files. -/
theorem c2_counterexample :
    (package_skill fooFS [] "foo" none (some ["foo"])).1 = PkgResult.success ∧
    ((package_skill fooFS [] "foo" none (some ["foo"])).2.2).lookup
        ["foo", "foo.skill"] =
      some (Node.archive
        [(["foo", "foo.skill"], pendingBytes),
         (["foo", "SKILL.md"], "---\nname: x\ndescription: y\n---\n"),
         (["foo", "helper.txt"], "hello")]) ∧
    fooFS.lookup ["foo", "foo.skill"] = none := by
  decide

/-- C6: when the identifier fails validation, `package_skill` returns the
failure immediately: it performs no filesystem operation at all and
leaves the filesystem unchanged. -/
theorem c6_invalid_name_no_access
    (fs : FS) (cwd : Path) (name : String) (spo opo : Option Path)
    (h : (validate_skill_name name).1 = false) :
    package_skill fs cwd name spo opo =
      (PkgResult.invalidName ((validate_skill_name name).2.getD ""), [], fs) := by
  unfold package_skill
  rw [if_pos h]

/-- C6 (witness): the identifier `Foo_Bar` is rejected with no filesystem
event and no filesystem change. -/
theorem c6_witness :
    package_skill fooFS [] "Foo_Bar" none none =
      (PkgResult.invalidName msgFormat, [], fooFS) := by
  rw [c6_invalid_name_no_access fooFS [] "Foo_Bar" none none (by decide)]
  decide

/-- C7: the program exit code is always 0 or 1, and it is 0 exactly when
an identifier argument was supplied and packaging succeeded; in every
other case, including a missing identifier argument, it is 1. -/
theorem c7_exit_codes (fs : FS) (cwd : Path) (argv : List String) :
    (main fs cwd argv = 0 ∨ main fs cwd argv = 1) ∧
      (main fs cwd argv = 0 ↔
        ∃ prog name rest, argv = prog :: name :: rest ∧
          (package_skill fs cwd name ((rest[0]?).map parsePath)
            ((rest[1]?).map parsePath)).1 = PkgResult.success) := by
  cases argv with
  | nil =>
    have hm : main fs cwd [] = 1 := rfl
    rw [hm]
    refine ⟨Or.inr rfl, ?_, ?_⟩
    · intro h
      exact absurd h one_ne_zero
    · rintro ⟨p, n, r, hcons, -⟩
      exact List.noConfusion hcons
  | cons a t =>
    cases t with
    | nil =>
      have hm : main fs cwd [a] = 1 := rfl
      rw [hm]
      refine ⟨Or.inr rfl, ?_, ?_⟩
      · intro h
        exact absurd h one_ne_zero
      · rintro ⟨p, n, r, hcons, -⟩
        injection hcons with h1 h2
        exact List.noConfusion h2
    | cons b r =>
      by_cases hc : (package_skill fs cwd b ((r[0]?).map parsePath)
          ((r[1]?).map parsePath)).1 = PkgResult.success
      · have hm : main fs cwd (a :: b :: r) = 0 := by
          show (if (package_skill fs cwd b ((r[0]?).map parsePath)
            ((r[1]?).map parsePath)).1 = PkgResult.success then 0 else 1) = 0
          rw [if_pos hc]
        rw [hm]
        exact ⟨Or.inl rfl, fun _ => ⟨a, b, r, rfl, hc⟩, fun _ => rfl⟩
      · have hm : main fs cwd (a :: b :: r) = 1 := by
          show (if (package_skill fs cwd b ((r[0]?).map parsePath)
            ((r[1]?).map parsePath)).1 = PkgResult.success then 0 else 1) = 1
          rw [if_neg hc]
        rw [hm]
        refine ⟨Or.inr rfl, ?_, ?_⟩
        · intro h
          exact absurd h one_ne_zero
        · rintro ⟨p, n, rest, hcons, hsucc⟩
          injection hcons with h1 h2
          injection h2 with h2 h3
          subst h2
          subst h3
          exact absurd hsucc hc

/-- C8: if a run succeeds and its output file does not land inside the
Source Tree (so the source tree is unchanged between the runs), then a
second run with the same arguments also succeeds and writes an archive
with the identical entry list: identical entry names and identical
per-entry content. -/
theorem c8_idempotent
    (fs : FS) (cwd : Path) (name : String) (spo opo : Option Path)
    (ev1 : List FsEvent) (fs1 : FS)
    (h : package_skill fs cwd name spo opo = (PkgResult.success, ev1, fs1))
    (hout : (srcPath cwd spo name).isPrefixOf (outFile cwd opo name) = false) :
    ∃ es ev2 fs2,
      fs1.lookup (outFile cwd opo name) = some (Node.archive es) ∧
      package_skill fs1 cwd name spo opo = (PkgResult.success, ev2, fs2) ∧
      fs2.lookup (outFile cwd opo name) = some (Node.archive es) := by
  obtain ⟨h1, h2, h3, ⟨content, h4, h5⟩, -, -, hfs1⟩ :=
    package_skill_success_inv fs cwd name spo opo ev1 fs1 h
  have hnpref : ¬ srcPath cwd spo name <+: outFile cwd opo name := by
    intro hc
    rw [(prefixOf_spec _ _).mpr hc] at hout
    exact Bool.noConfusion hout
  have hsp_ne : srcPath cwd spo name ≠ outFile cwd opo name := by
    intro he
    exact hnpref (he ▸ List.prefix_refl _)
  have hmd_pref : srcPath cwd spo name <+: manifestPath cwd spo name :=
    List.prefix_append _ _
  have hmd_ne : manifestPath cwd spo name ≠ outFile cwd opo name := by
    intro he
    exact hnpref (he ▸ hmd_pref)
  have hwalk0 : walkList (openedFS fs (outFile cwd opo name))
      (srcPath cwd spo name) = walkList fs (srcPath cwd spo name) := by
    unfold openedFS
    exact walkList_insert fs _ _ _ hnpref
  have hzip0 : zipEntries (openedFS fs (outFile cwd opo name))
      (srcPath cwd spo name) = zipEntries fs (srcPath cwd spo name) := by
    unfold zipEntries
    rw [hwalk0]
  have hfs1' : fs1 = fs.insert (outFile cwd opo name)
      (Node.archive (zipEntries fs (srcPath cwd spo name))) := by
    rw [hfs1, hzip0]
    unfold openedFS
    exact insert_insert fs _ _ _
  have hsp_look : fs1.lookup (srcPath cwd spo name) =
      fs.lookup (srcPath cwd spo name) := by
    rw [hfs1']
    exact lookup_insert_ne fs _ _ _ hsp_ne
  have hmd_look : fs1.lookup (manifestPath cwd spo name) =
      fs.lookup (manifestPath cwd spo name) := by
    rw [hfs1']
    exact lookup_insert_ne fs _ _ _ hmd_ne
  have hout_look : fs1.lookup (outFile cwd opo name) =
      some (Node.archive (zipEntries fs (srcPath cwd spo name))) := by
    rw [hfs1']
    exact lookup_insert fs _ _
  have hwalk : walkList fs1 (srcPath cwd spo name) =
      walkList fs (srcPath cwd spo name) := by
    rw [hfs1']
    exact walkList_insert fs _ _ _ hnpref
  have hwalk1 : walkList (openedFS fs1 (outFile cwd opo name))
      (srcPath cwd spo name) = walkList fs1 (srcPath cwd spo name) := by
    unfold openedFS
    exact walkList_insert fs1 _ _ _ hnpref
  have hrun2 := package_skill_success_run fs1 cwd name spo opo h1
    (by unfold FS.existsP at h2 ⊢; rw [hsp_look]; exact h2)
    (by unfold FS.existsP at h3 ⊢; rw [hmd_look]; exact h3)
    content (by rw [hmd_look]; exact h4) h5
    (by rw [hout_look]; simp)
  refine ⟨zipEntries fs (srcPath cwd spo name), _, _, hout_look, hrun2, ?_⟩
  rw [lookup_insert]
  unfold zipEntries
  rw [hwalk1, hwalk]

/-- C8 (witness): running the packager twice on the example directory with
the output in the parent directory produces the same archive both times. -/
theorem c8_witness :
    ∃ es ev2 fs2,
      ((package_skill fooFS [] "foo" none none).2.2).lookup
          (outFile [] none "foo") = some (Node.archive es) ∧
      package_skill (package_skill fooFS [] "foo" none none).2.2 []
          "foo" none none = (PkgResult.success, ev2, fs2) ∧
      fs2.lookup (outFile [] none "foo") = some (Node.archive es) :=
  c8_idempotent fooFS [] "foo" none none
    (package_skill fooFS [] "foo" none none).2.1
    (package_skill fooFS [] "foo" none none).2.2 rfl (by decide)

/-- C9: whenever a validation step fails — invalid identifier, missing
source directory, missing manifest, or failed frontmatter validation —
no write event is performed and the filesystem is unchanged. -/
theorem c9_no_write_on_validation_failure
    (fs : FS) (cwd : Path) (name : String) (spo opo : Option Path)
    (r : PkgResult) (ev : List FsEvent) (fs' : FS)
    (h : package_skill fs cwd name spo opo = (r, ev, fs'))
    (hr : (∃ m, r = PkgResult.invalidName m) ∨ r = PkgResult.dirNotFound ∨
      r = PkgResult.manifestNotFound ∨ (∃ m, r = PkgResult.fmError m)) :
    (∀ p, FsEvent.writeFile p ∉ ev) ∧ fs' = fs := by
  unfold package_skill at h
  split at h
  · injection h with h1 h2
    injection h2 with hev hfs
    subst hev
    subst hfs
    exact ⟨fun p => by simp, rfl⟩
  · split at h
    · injection h with h1 h2
      injection h2 with hev hfs
      subst hev
      subst hfs
      refine ⟨fun p => ?_, rfl⟩
      simp
    · split at h
      · injection h with h1 h2
        injection h2 with hev hfs
        subst hev
        subst hfs
        refine ⟨fun p => ?_, rfl⟩
        simp
      · split at h
        · injection h with h1 h2
          injection h2 with hev hfs
          subst hev
          subst hfs
          refine ⟨fun p => ?_, rfl⟩
          simp [preLog]
        · split at h
          · injection h with h1 h2
            injection h2 with hev hfs
            subst hev
            subst hfs
            refine ⟨fun p => ?_, rfl⟩
            simp [preLog]
          · split at h
            · injection h with h1 h2
              subst h1
              rcases hr with ⟨m, hm⟩ | hm | hm | ⟨m, hm⟩ <;>
                exact PkgResult.noConfusion hm
            · injection h with h1 h2
              subst h1
              rcases hr with ⟨m, hm⟩ | hm | hm | ⟨m, hm⟩ <;>
                exact PkgResult.noConfusion hm

/-- C9 (witness): a run failing with a missing source directory performs
no write and leaves the filesystem unchanged. -/
theorem c9_witness :
    (∀ p, FsEvent.writeFile p ∉
        (package_skill fooFS [] "bar" none none).2.1) ∧
      (package_skill fooFS [] "bar" none none).2.2 = fooFS :=
  c9_no_write_on_validation_failure fooFS [] "bar" none none
    (package_skill fooFS [] "bar" none none).1
    (package_skill fooFS [] "bar" none none).2.1
    (package_skill fooFS [] "bar" none none).2.2 rfl
    (Or.inr (Or.inl (by decide)))

/-- C10: the existence check on the resolved skill path does not require a
directory: when that path holds a regular file (and hence no manifest
exists beneath it), the run does not report the missing-directory failure
but proceeds and fails with the missing-manifest failure. -/
theorem c10_file_not_directory
    (fs : FS) (cwd : Path) (name : String) (spo opo : Option Path) (c : String)
    (h1 : (validate_skill_name name).1 = true)
    (h2 : fs.lookup (srcPath cwd spo name) = some (Node.file c))
    (h3 : fs.lookup (manifestPath cwd spo name) = none) :
    (package_skill fs cwd name spo opo).1 = PkgResult.manifestNotFound ∧
      (package_skill fs cwd name spo opo).1 ≠ PkgResult.dirNotFound := by
  unfold package_skill
  rw [if_neg (by simp [h1]), if_neg (by simp [FS.existsP, h2]),
    if_pos (by simp [FS.existsP, h3])]
  exact ⟨rfl, fun hc => PkgResult.noConfusion hc⟩

/-- C10 (witness): with `foo` present as a regular file, packaging `foo`
reports the missing manifest, not a missing directory. -/
theorem c10_witness :
    (package_skill fileFS [] "foo" none none).1 = PkgResult.manifestNotFound ∧
      (package_skill fileFS [] "foo" none none).1 ≠ PkgResult.dirNotFound :=
  c10_file_not_directory fileFS [] "foo" none none "oops"
    (by decide) (by decide) (by decide)

end SkillPackager
